import Mathlib

/-
  Shallow embedding of the dekrunch repository (adafs.py and adafs_fuse.py).

  Python strings are modelled as lists of characters (`Str`); reading a file
  is modelled by an `Option Str` (`none` when the file cannot be read, which
  is exactly the `except` branch of `get_ada_entity_name`).  Regular
  expressions from the source are translated to explicit character scanners
  that reproduce the anchoring, alternation and backtracking behaviour of the
  Python patterns on ASCII input (unicode-specific behaviour of `\w`/`\s` and
  of `str.upper` outside ASCII is outside the modelled input space, as is the
  use of path separators other than '/').
-/

abbrev Str := List Char

def str (s : String) : Str := s.data

/-- Python `\s` inside a single line (space, tab, CR, vertical tab, form feed;
a newline never occurs inside a split line). -/
def isPySpace (c : Char) : Bool :=
  c = ' ' || c = '\t' || c = '\n' || c = '\r' || c = '\x0B' || c = '\x0C'

/-- Python `\w` on ASCII: letters, digits and underscore. -/
def isWordChar (c : Char) : Bool := c.isAlphanum || c = '_'

/-- Consume the keyword `kw` (given in lower case) case-insensitively from the
front of `cs`, returning the remainder, as a regex literal with `re.IGNORECASE`
does. -/
def ciStrip : Str → Str → Option Str
  | [], cs => some cs
  | _ :: _, [] => none
  | k :: ks, c :: cs => if c.toLower = k then ciStrip ks cs else none

/-- Embeds `\s+`: at least one whitespace character, consumed greedily. -/
def ws1 : Str → Option Str
  | [] => none
  | c :: cs => if isPySpace c then some (cs.dropWhile isPySpace) else none

/-- Characters that can appear in the dotted-name capture `[a-zA-Z_]\w*(?:\.[a-zA-Z_]\w*)*`. -/
def wordOrDot (c : Char) : Bool := isWordChar c || c = '.'

/-- A segment of a dotted name must be nonempty and start with `[a-zA-Z_]`. -/
def validSeg (s : Str) : Bool :=
  match s with
  | [] => false
  | c :: _ => c.isAlpha || c = '_'

/-- Greedy match of `[a-zA-Z_]\w*(?:\.[a-zA-Z_]\w*)*` at the front of `cs`,
returning the captured dotted name.  The regex consumes dot/identifier pairs
greedily and stops at the first pair that fails, which is the `takeWhile` over
the dot-separated segments of the maximal word-or-dot prefix. -/
def parseDottedName (cs : Str) : Option Str :=
  let cand := cs.takeWhile wordOrDot
  let segs := cand.splitOn '.'
  let good := segs.takeWhile validSeg
  match good with
  | [] => none
  | _ :: _ => some (List.intercalate ['.'] good)

/-- The `\s+body\s+(name)` branch of the package regex (tried first; the
regex backtracks to the branch without `body` if this one fails). -/
def parsePackageBody (cs1 : Str) : Option Str :=
  match ws1 cs1 with
  | none => none
  | some r =>
    match ciStrip (str "body") r with
    | none => none
    | some r2 =>
      match ws1 r2 with
      | none => none
      | some r3 => parseDottedName r3

/-- One line of `_find_package_in_string`'s regex
`^\s*(?:private\s+)?package(?:\s+body)?\s+([a-zA-Z_]\w*(?:\.[a-zA-Z_]\w*)*)`
(case-insensitive, `re.MULTILINE` makes `^` anchor at each line start). -/
def parsePackageLine (line : Str) : Option Str :=
  let cs0 := line.dropWhile isPySpace
  let cs :=
    match ciStrip (str "private") cs0 with
    | some r =>
      match ws1 r with
      | some r2 => r2
      | none => cs0
    | none => cs0
  match ciStrip (str "package") cs with
  | none => none
  | some cs1 =>
    match parsePackageBody cs1 with
    | some n => some n
    | none =>
      match ws1 cs1 with
      | none => none
      | some r => parseDottedName r

/-- Split a source string into the lines at which `re.MULTILINE`'s `^` anchors. -/
def linesOf (src : Str) : List Str := src.splitOn '\n'

/-- Embeds `_find_package_in_string`: first line whose leading part matches the
package-declaration regex; the captured dotted name is returned in its
original case. -/
def find_package_in_string (src : Str) : Option Str :=
  (linesOf src).findSome? parsePackageLine

/-- Embeds `line.split('--')[0]`: the prefix of the line before the first `--`. -/
def stripComment : Str → Str
  | [] => []
  | '-' :: '-' :: _ => []
  | c :: rest => c :: stripComment rest

/-- Embeds `[a-zA-Z_]\w*`: a simple (undotted) identifier at the front of `cs`. -/
def parseSimpleIdent (cs : Str) : Option Str :=
  match cs with
  | [] => none
  | c :: rest =>
    if c.isAlpha || c = '_' then some (c :: rest.takeWhile isWordChar) else none

/-- Embeds `decl_re.match`: `^\s*(procedure|function)\s+([a-zA-Z_]\w*)`, returning the
captured entity name. -/
def declMatch (clean : Str) : Option Str :=
  let cs := clean.dropWhile isPySpace
  let afterKw :=
    match ciStrip (str "procedure") cs with
    | some r => some r
    | none => ciStrip (str "function") cs
  match afterKw with
  | none => none
  | some r =>
    match ws1 r with
    | none => none
    | some r2 => parseSimpleIdent r2

/-- True when the next characters are not a word character (a `\b` boundary
right of a word character, or end of line). -/
def notWordAhead : Str → Bool
  | [] => true
  | c :: _ => !isWordChar c

/-- Embeds `.*\bis\b` after a position whose previous character is `prev`: some later
occurrence of the standalone word `is` (case-insensitive). -/
def hasWordIs : Char → Str → Bool
  | _, [] => false
  | prev, c :: rest =>
    (if (c = 'i' || c = 'I') && !isWordChar prev then
       match rest with
       | c2 :: rest2 => (c2 = 's' || c2 = 'S') && notWordAhead rest2
       | [] => false
     else false)
    || hasWordIs c rest

/-- One keyword alternative of
`block_start_re = ^\s*(package|procedure|function|task|protected)\b.*\bis\b`:
the keyword at the front (after leading whitespace already removed), a word
boundary, then a standalone `is` somewhere later.  `hasWordIs` is seeded with
a word character because the character left of the boundary position is the
keyword's last letter. -/
def blockStartKw (kw : Str) (cs : Str) : Bool :=
  match ciStrip kw cs with
  | none => false
  | some rest => notWordAhead rest && hasWordIs 'a' rest

/-- Embeds `block_start_re.search(clean_line)`: the pattern is anchored with `^`, so
search succeeds only at the line start.  At most one keyword alternative can
match at a given position (none is a prefix of another). -/
def blockStart (clean : Str) : Bool :=
  let cs := clean.dropWhile isPySpace
  [str "package", str "procedure", str "function", str "task", str "protected"].any
    (fun kw => blockStartKw kw cs)

/-- Embeds `block_end_re.search(clean_line)`: `^\s*end\b`. -/
def blockEnd (clean : Str) : Bool :=
  match ciStrip (str "end") (clean.dropWhile isPySpace) with
  | none => false
  | some rest => notWordAhead rest

/-- The line loop of `_find_procs_or_funcs_in_string`: collect declarations
seen at nesting level zero, then update the nesting level from the same line
(`end` decrements are floored at zero, which `Nat` subtraction models exactly). -/
def procsLoop : List Str → Nat → List Str → List Str
  | [], _, acc => acc
  | line :: rest, nesting, acc =>
    let clean := stripComment line
    let acc2 :=
      match declMatch clean, nesting with
      | some n, 0 => acc ++ [n]
      | _, _ => acc
    let nesting2 :=
      if blockStart clean then nesting + 1
      else if blockEnd clean then nesting - 1
      else nesting
    procsLoop rest nesting2 acc2

/-- Embeds `_find_procs_or_funcs_in_string`: `None` when no top-level declaration is
found; otherwise only the first one is kept (the source's documented
first-only behaviour, flagged there with a FIXME). -/
def find_procs_or_funcs_in_string (src : Str) : Option Str :=
  match procsLoop (linesOf src) 0 [] with
  | [] => none
  | n :: _ => some n

/-- Embeds `get_ada_entity_name`: `none` when the file cannot be read (the `except`
branches), otherwise the package scan first and the subprogram scan as
fallback. -/
def get_ada_entity_name (readResult : Option Str) : Option Str :=
  match readResult with
  | none => none
  | some src =>
    match find_package_in_string src with
    | some p => some p
    | none => find_procs_or_funcs_in_string src

/-- Embeds `os.path.splitext` on a base name (no '/' occurs in it): split at the last
dot, unless every character before that dot is itself a dot (CPython's
`genericpath._splitext` leading-dot rule), in which case the extension is
empty. -/
def splitext (p : Str) : Str × Str :=
  match (p.reverse.findIdx? (fun c => c == '.')) with
  | none => (p, [])
  | some i =>
    let dotIdx := p.length - 1 - i
    if (p.take dotIdx).all (fun c => c == '.') then (p, [])
    else (p.take dotIdx, p.drop dotIdx)

/-- Embeds `os.path.join(dirs, name)` for a relative `dirs` ('' for the source root)
and a relative `name`. -/
def joinPath (a b : Str) : Str := if a = [] then b else a ++ '/' :: b

/-- Embeds `map_to_virtual(src_root, path)` after `rel = relpath(path, src_root)` has
been split into the directory part `dirs` and the base name `fname`; `content`
is the outcome of reading the file (`none` when unreadable).  If no entity
name is resolved the placeholder `base + "KNUNCHED"` is used (`if not package`
also fires on an empty resolved name), and the extension is lower-cased. -/
def map_to_virtual (dirs fname : Str) (content : Option Str) : Str :=
  let base := (splitext fname).1
  let ext := (splitext fname).2
  let package :=
    match get_ada_entity_name content with
    | none => base ++ str "KNUNCHED"
    | some p => if p = [] then base ++ str "KNUNCHED" else p
  joinPath dirs (package ++ ext.map Char.toLower)

/-- A source file as the tree walk sees it: its relative directory, its base
name and the outcome of reading it.  The file's real path is determined by
`dirs` and `fname`, so this record also stands for the real path stored by
the backends. -/
structure SrcFile where
  dirs : Str
  fname : Str
  content : Option Str
deriving DecidableEq

/-- Embeds `f.endswith('.ads') or f.endswith('.adb')`: the recognized extensions. -/
def recognized (f : SrcFile) : Bool :=
  (str ".ads").isSuffixOf f.fname || (str ".adb").isSuffixOf f.fname

/-- The virtual path `build_view` computes for a file. -/
def virtOf (f : SrcFile) : Str := map_to_virtual f.dirs f.fname f.content

/-- The key `AdaFuse._build` stores for a file:
`map_to_virtual(...).replace(os.sep, '/').upper()` (the replace is the
identity on '/'-separated paths). -/
def virtOfU (f : SrcFile) : Str := (virtOf f).map Char.toUpper

/-- Lookup in an association list of virtual paths (first binding wins, as in
a map with unique keys). -/
def alookup (m : List (Str × SrcFile)) (k : Str) : Option SrcFile :=
  match m with
  | [] => none
  | e :: rest => if e.1 = k then some e.2 else alookup rest k

/-- One file of `build_view`'s walk loop: unrecognized extensions are skipped;
`if not os.path.exists(dest)` drops a file whose virtual path is already
occupied, so the first-discovered file keeps the slot. -/
def build_view_step (m : List (Str × SrcFile)) (f : SrcFile) : List (Str × SrcFile) :=
  if recognized f then
    if (alookup m (virtOf f)).isSome then m else m ++ [(virtOf f, f)]
  else m

/-- The virtual-path → file mapping `build_view` materializes, in
directory-walk order. -/
def build_view (files : List SrcFile) : List (Str × SrcFile) :=
  files.foldl build_view_step []

/-- The mode `build_view` gives every directory it created:
`os.chmod(d, 0o755)` under the comment "Make all created directories
read-only to mimic a read-only mount". -/
def build_view_chmod (created : List Str) : List (Str × Nat) :=
  created.map (fun d => (d, 0o755))

/-- Embeds `self._map[virt] = real` on a Python dict: replace the binding in place
when the key exists, append it otherwise. -/
def dictInsert (m : List (Str × SrcFile)) (k : Str) (v : SrcFile) : List (Str × SrcFile) :=
  if (alookup m k).isSome then m.map (fun e => if e.1 = k then (e.1, v) else e)
  else m ++ [(k, v)]

/-- One file of `AdaFuse._build`'s loop: unrecognized extensions are skipped;
a later file with the same key overwrites the dict entry. -/
def fuse_step (m : List (Str × SrcFile)) (f : SrcFile) : List (Str × SrcFile) :=
  if recognized f then dictInsert m (virtOfU f) f else m

/-- The virtual-path → file dict `AdaFuse._build` constructs, in
directory-walk order. -/
def fuse_build_map (files : List SrcFile) : List (Str × SrcFile) :=
  files.foldl fuse_step []

/-- Embeds `os.path.dirname` on a relative '/'-separated path: everything before the
last '/', or '' when there is none. -/
def dirname (p : Str) : Str :=
  ((p.reverse.dropWhile (fun c => c != '/')).drop 1).reverse

/-- Embeds `os.path.basename` on a '/'-separated path. -/
def basenameStr (p : Str) : Str :=
  (p.reverse.takeWhile (fun c => c != '/')).reverse

/-- Embeds `AdaFuse._add_dir`: add the path and each of its ancestors up to '' to the
directory set.  Modelled from the spec: `_add_dir` first calls
`self._normalize_path`, a method absent from the repository's sources; the
spec's LiveBackend stores directory paths as given, so the normalization is
modelled as the identity on the already '/'-separated relative paths used
here.  The `while True` loop is written with explicit fuel so that the
definition stays structurally recursive; `dirname` strictly shortens a
nonempty path, so `path.length + 1` steps always reach the '' stop case. -/
def add_dirGo : Nat → List Str → Str → List Str
  | 0, dirs, _ => dirs
  | fuel + 1, dirs, path =>
    let dirs2 := if path ∈ dirs then dirs else dirs ++ [path]
    if path = [] then dirs2 else add_dirGo fuel dirs2 (dirname path)

def add_dir (dirs : List Str) (path : Str) : List Str :=
  add_dirGo (path.length + 1) dirs path

/-- The directory set `AdaFuse._build` accumulates: '' first, then the
relative path of every real subdirectory seen by the walk (in its original
case), then the virtual directory of every recognized file. -/
def fuse_build_dirs (walkDirs : List Str) (files : List SrcFile) : List Str :=
  let d0 := walkDirs.foldl add_dir [[]]
  files.foldl (fun ds f => if recognized f then add_dir ds (dirname (virtOfU f)) else ds) d0

/-- Embeds `AdaFuse._lookup`: `path.lstrip('/').replace(os.sep, '/').upper()` (the
replace is the identity with `os.sep = '/'`). -/
def lookup_key (p : Str) : Str :=
  (p.dropWhile (fun c => c == '/')).map Char.toUpper

/-- The three outcomes of `AdaFuse.getattr`: directory metadata (fixed mode
`S_IFDIR|0o555`, link count 2), the underlying file's metadata with mode
forced to `S_IFREG|0o444`, or ENOENT. -/
inductive FuseAttr where
  | dir : FuseAttr
  | file : SrcFile → FuseAttr
  | enoent : FuseAttr
deriving DecidableEq

/-- Embeds `AdaFuse.getattr`. -/
def fuse_getattr (dirs : List Str) (m : List (Str × SrcFile)) (path : Str) : FuseAttr :=
  if lookup_key path = [] ∨ lookup_key path ∈ dirs then .dir
  else
    match alookup m (lookup_key path) with
    | some f => .file f
    | none => .enoent

/-- Lexicographic order on code points, as Python's `sorted` uses on strings. -/
def strLe : Str → Str → Bool
  | [], _ => true
  | _ :: _, [] => false
  | a :: as, b :: bs => if a = b then strLe as bs else decide (a < b)

def insertSorted (x : Str) : List Str → List Str
  | [] => [x]
  | y :: ys => if strLe x y then x :: y :: ys else y :: insertSorted x ys

/-- Embeds `sorted` on a list of strings. -/
def sortStr (l : List Str) : List Str := l.foldr insertSorted []

/-- The body of `AdaFuse.readdir` after the key has been computed: '.' and
'..', the immediate subdirectories of the key, and the base names of mapped
files directly inside it, as a sorted set. -/
def readdirAt (dirs : List Str) (m : List (Str × SrcFile)) (key : Str) : List Str :=
  let pfx := if key = [] then [] else key ++ ['/']
  let dirEnts := dirs.filterMap (fun d =>
    if pfx.isPrefixOf d && d != key then
      if '/' ∈ d.drop pfx.length then none else some (d.drop pfx.length)
    else none)
  let fileEnts := m.filterMap (fun e =>
    if pfx.isPrefixOf e.1 then
      if '/' ∈ e.1.drop pfx.length then none else some (basenameStr (e.1.drop pfx.length))
    else none)
  sortStr ((str "." :: str ".." :: dirEnts ++ fileEnts).dedup)

/-- Embeds `AdaFuse.readdir`. -/
def fuse_readdir (dirs : List Str) (m : List (Str × SrcFile)) (path : Str) : List Str :=
  readdirAt dirs m (lookup_key path)

def O_WRONLY : Nat := 1
def O_RDWR : Nat := 2
def O_APPEND : Nat := 1024
def O_CREAT : Nat := 64

/-- The outcomes of `AdaFuse.open`: EROFS, ENOENT, or a fresh handle on the
underlying file opened `O_RDONLY`. -/
inductive OpenResult where
  | erofs : OpenResult
  | enoent : OpenResult
  | handle : SrcFile → OpenResult
deriving DecidableEq

/-- Embeds `AdaFuse.open`: write-intent flags are refused first, then the key is
resolved in the mapping. -/
def fuse_open (m : List (Str × SrcFile)) (path : Str) (flags : Nat) : OpenResult :=
  if flags &&& (O_WRONLY ||| O_RDWR ||| O_APPEND) ≠ 0 then .erofs
  else
    match alookup m (lookup_key path) with
    | none => .enoent
    | some f => .handle f

/- A materialized directory tree: `mk subs files` holds the named
subdirectory entries and the plain file names directly inside the directory.
`EntryList` is a specialized list of (name, subtree) pairs so that all
recursions over the tree are structural. -/
mutual
inductive DirTree where
  | mk : EntryList → List Str → DirTree
inductive EntryList where
  | nil : EntryList
  | cons : Str → DirTree → EntryList → EntryList
end

def EntryList.isNil : EntryList → Bool
  | .nil => true
  | .cons _ _ _ => false

/-- The hybrid test `_categorize_dir` applies to a directory named `dname`:
it has subdirectories and owns a file named after itself
(`basename(path) + ".ads"` or `".adb"`).  This is also the claim's notion of
a hybrid directory. -/
def hybridNode (dname : Str) : DirTree → Bool
  | .mk subs files =>
    (!subs.isNil) && (files.contains (dname ++ str ".ads") || files.contains (dname ++ str ".adb"))

/- Embeds `_categorize_dir(path, pkg_prefix)` as a transformation of the entry the
directory occupies in its parent: children are processed first (each with
prefix `pkg_prefix + "." + child`), using the subdirectory list snapshotted
on entry; then, if the directory is hybrid and the group path
`parent/pkg_prefix` differs from `parent/dname` (the `abspath` comparison),
the whole directory is moved into a fresh sibling group directory named
`pkg_prefix`.  The model assumes the group name does not collide with an
existing sibling (the `makedirs(exist_ok=True)` merge case). -/
mutual
def categorizeDir (dname pfx : Str) : DirTree → Str × DirTree
  | .mk subs files =>
    let subs2 := categorizeEntries pfx subs
    if (!subs.isNil) && (files.contains (dname ++ str ".ads") || files.contains (dname ++ str ".adb")) then
      if pfx = dname then (dname, .mk subs2 files)
      else (pfx, .mk (.cons dname (.mk subs2 files) .nil) [])
    else (dname, .mk subs2 files)
def categorizeEntries (pfx : Str) : EntryList → EntryList
  | .nil => .nil
  | .cons d td rest =>
    let r := categorizeDir d (pfx ++ '.' :: d) td
    .cons r.1 r.2 (categorizeEntries pfx rest)
end

/-- The loop of `categorize_directory(root)`: every top-level directory `name`
is processed with `pkg_prefix = name`. -/
def categorizeTop : EntryList → EntryList
  | .nil => .nil
  | .cons d td rest =>
    let r := categorizeDir d d td
    .cons r.1 r.2 (categorizeTop rest)

/-- Embeds `categorize_directory(root)`: files directly at the root are not touched. -/
def categorize_directory : DirTree → DirTree
  | .mk subs files => .mk (categorizeTop subs) files

/- Is some directory anywhere in the tree hybrid? -/
mutual
def anyHybridT : DirTree → Bool
  | .mk subs _ => anyHybridL subs
def anyHybridL : EntryList → Bool
  | .nil => false
  | .cons d t rest => hybridNode d t || anyHybridT t || anyHybridL rest
end

/- Does the tree contain a directory with the given name? -/
mutual
def containsDirT (q : Str) : DirTree → Bool
  | .mk subs _ => containsDirL q subs
def containsDirL (q : Str) : EntryList → Bool
  | .nil => false
  | .cons d t rest => (d == q) || containsDirT q t || containsDirL q rest
end

/-
  Concrete inputs used by the counterexamples and witnesses.
-/

/-- A body file at the source root resolving to package `Pkg`. -/
def pkgBody1 : SrcFile := ⟨[], str "pkg-aaa.adb", some (str "package body Pkg is")⟩

/-- A second body file, discovered later, also resolving to package `Pkg`. -/
def pkgBody2 : SrcFile := ⟨[], str "pkg-bbb.adb", some (str "package body Pkg is")⟩

/-- A spec file at the source root resolving to package `A`. -/
def fA : SrcFile := ⟨[], str "a-x.ads", some (str "package A is")⟩

/-- A recognized file whose content could not be read. -/
def unreadableF : SrcFile := ⟨[], str "foo.ads", none⟩

/-- The snapshot tree of the spec's parent/child scenario: directory `OUTER`
owns `OUTER.ads` and hosts child directory `INNER` (the exact shape
`build_view` materializes for a source directory `OUTER` containing a spec of
`OUTER` and a subdirectory `INNER` with a spec of `INNER`). -/
def t1 : DirTree :=
  .mk (.cons (str "OUTER")
        (.mk (.cons (str "INNER") (.mk .nil [str "INNER.ads"]) .nil)
          [str "OUTER.ads"])
        .nil)
    []

/-- A snapshot tree `A/B/{B.ads, C/}`: the first categorize pass moves `B`
into the group `A/A.B`, a second pass moves it again into `A/A.B/A.A.B.B`. -/
def t2 : DirTree :=
  .mk (.cons (str "A")
        (.mk (.cons (str "B")
              (.mk (.cons (str "C") (.mk .nil []) .nil) [str "B.ads"])
              .nil)
          [])
        .nil)
    []

/-
  Theorems.  General helper lemmas come first, then one main theorem per
  claim, with its counterexample and witness where applicable.
-/

/-- Unfolding equation for `map_to_virtual`. -/
theorem map_to_virtual_eq (dirs fname : Str) (content : Option Str) :
    map_to_virtual dirs fname content =
      joinPath dirs
        ((match get_ada_entity_name content with
          | none => (splitext fname).1 ++ str "KNUNCHED"
          | some p => if p = [] then (splitext fname).1 ++ str "KNUNCHED" else p)
         ++ ((splitext fname).2.map Char.toLower)) := rfl

/-- ASCII upper-casing maps only '/' to '/'. -/
theorem toUpper_eq_slash (c : Char) (h : c.toUpper = '/') : c = '/' := by
  unfold Char.toUpper at h
  by_cases hc : c.toNat ≥ 97 ∧ c.toNat ≤ 122
  · exfalso
    rw [if_pos hc] at h
    obtain ⟨h1, h2⟩ := hc
    interval_cases hn : c.toNat <;> exact absurd h (by decide)
  · rw [if_neg hc] at h
    exact h

/-- Equal upper-casings survive stripping the leading slashes. -/
theorem dropSlash_upper (p q : Str) (h : p.map Char.toUpper = q.map Char.toUpper) :
    (p.dropWhile (fun c => c == '/')).map Char.toUpper =
      (q.dropWhile (fun c => c == '/')).map Char.toUpper := by
  induction p generalizing q with
  | nil =>
    have hq : q = [] := by
      cases q with
      | nil => rfl
      | cons b bs => simp at h
    rw [hq]
  | cons a as ih =>
    cases q with
    | nil => simp at h
    | cons b bs =>
      simp only [List.map_cons, List.cons.injEq] at h
      obtain ⟨h1, h2⟩ := h
      by_cases ha : a = '/'
      · have hb : b = '/' := toUpper_eq_slash b (by rw [← h1, ha]; rfl)
        simp only [List.dropWhile_cons, ha, hb]
        simpa using ih bs h2
      · have hb : b ≠ '/' := fun hb => ha (toUpper_eq_slash a (by rw [h1, hb]; rfl))
        simp only [List.dropWhile_cons, beq_iff_eq, ha, hb, if_false, List.map_cons]
        simp [h1, h2]

/-- Case variants of a request path produce the same lookup key. -/
theorem lookup_key_congr (p q : Str) (h : p.map Char.toUpper = q.map Char.toUpper) :
    lookup_key p = lookup_key q :=
  dropSlash_upper p q h

/-- Lookup after appending a single binding. -/
theorem alookup_append_one (m : List (Str × SrcFile)) (k : Str) (v : SrcFile) (p : Str) :
    alookup (m ++ [(k, v)]) p =
      match alookup m p with
      | some w => some w
      | none => if k = p then some v else none := by
  induction m with
  | nil => simp [alookup]
  | cons e rest ih =>
    by_cases he : e.1 = p <;> simp [alookup, he, ih]

/-- In-place replacement at key `k` does not change lookups at other keys. -/
theorem alookup_map_replace (m : List (Str × SrcFile)) (k : Str) (v : SrcFile) (p : Str)
    (hne : p ≠ k) :
    alookup (m.map (fun e => if e.1 = k then (e.1, v) else e)) p = alookup m p := by
  induction m with
  | nil => rfl
  | cons e rest ih =>
    have hkp : ¬ k = p := fun he => hne he.symm
    by_cases hep : e.1 = p
    · have hek : ¬ e.1 = k := fun hk => hne (by rw [← hep]; exact hk)
      simp [alookup, hek, hep, hne]
    · by_cases hek : e.1 = k <;> simp [alookup, hek, hep, ih, hkp]

/-- In-place replacement at an existing key `k` rebinds it to `v`. -/
theorem alookup_map_replace_self (m : List (Str × SrcFile)) (k : Str) (v : SrcFile)
    (hk : (alookup m k).isSome = true) :
    alookup (m.map (fun e => if e.1 = k then (e.1, v) else e)) k = some v := by
  induction m with
  | nil => simp [alookup] at hk
  | cons e rest ih =>
    by_cases hek : e.1 = k
    · simp [alookup, hek]
    · have hk2 : (alookup rest k).isSome = true := by
        simpa [alookup, hek] using hk
      simp [alookup, hek, ih hk2]

/-- Embeds the dict write `m[k] = v`: lookup at `k` afterwards gives `v`. -/
theorem alookup_dictInsert_self (m : List (Str × SrcFile)) (k : Str) (v : SrcFile) :
    alookup (dictInsert m k v) k = some v := by
  unfold dictInsert
  by_cases hk : (alookup m k).isSome = true
  · rw [if_pos hk]
    exact alookup_map_replace_self m k v hk
  · rw [if_neg hk, alookup_append_one]
    have hnone : alookup m k = none := by
      cases h : alookup m k
      · rfl
      · exact absurd (by simp [h]) hk
    rw [hnone]
    simp

/-- Embeds the dict write `m[k] = v`: other keys are unchanged. -/
theorem alookup_dictInsert_other (m : List (Str × SrcFile)) (k : Str) (v : SrcFile) (p : Str)
    (hne : p ≠ k) :
    alookup (dictInsert m k v) p = alookup m p := by
  unfold dictInsert
  split
  · exact alookup_map_replace m k v p hne
  · rw [alookup_append_one]
    cases h : alookup m p
    · have hkp : ¬ k = p := fun he => hne he.symm
      simp [hkp]
    · rfl

/-- Analogue of `find?` distributing over an append. -/
theorem find?_append_files (l1 l2 : List SrcFile) (pred : SrcFile → Bool) :
    (l1 ++ l2).find? pred =
      match l1.find? pred with
      | some a => some a
      | none => l2.find? pred := by
  induction l1 with
  | nil => rfl
  | cons a l ih =>
    by_cases ha : pred a = true <;> simp [List.find?, ha, ih]

/-- A key misses an association list exactly when it is not among the keys. -/
theorem alookup_eq_none_iff (m : List (Str × SrcFile)) (p : Str) :
    alookup m p = none ↔ p ∉ m.map Prod.fst := by
  induction m with
  | nil => simp [alookup]
  | cons e rest ih =>
    simp only [alookup, List.map_cons, List.mem_cons]
    by_cases he : e.1 = p
    · rw [if_pos he]
      constructor
      · intro h
        exact absurd h (by simp)
      · intro h
        exact absurd (Or.inl he.symm) h
    · rw [if_neg he, ih]
      constructor
      · intro h hmem
        cases hmem with
        | inl h1 => exact he h1.symm
        | inr h2 => exact h h2
      · intro h hmem
        exact h (Or.inr hmem)

/-- The snapshot build keeps, at every virtual path, the first recognized file
of the walk that maps there (the `os.path.exists` keep-first drop), on top of
whatever the accumulator already holds. -/
theorem alookup_foldl_build (files : List SrcFile) (m : List (Str × SrcFile)) (p : Str) :
    alookup (files.foldl build_view_step m) p =
      match alookup m p with
      | some w => some w
      | none => (files.filter (fun f => recognized f)).find? (fun f => virtOf f == p) := by
  induction files generalizing m with
  | nil =>
    rw [List.foldl_nil]
    cases alookup m p <;> rfl
  | cons f fs ih =>
    rw [List.foldl_cons, ih]
    by_cases hrec : recognized f = true
    · rw [List.filter_cons_of_pos hrec]
      unfold build_view_step
      rw [if_pos hrec]
      by_cases hk : (alookup m (virtOf f)).isSome = true
      · rw [if_pos hk]
        cases hmp : alookup m p with
        | some v => rfl
        | none =>
          have hne : ¬ (virtOf f == p) = true := by
            intro hbe
            have hvp : virtOf f = p := by simpa using hbe
            rw [← hvp] at hmp
            rw [hmp] at hk
            simp at hk
          exact (@List.find?_cons_of_neg _ (fun g => virtOf g == p) f _ hne).symm
      · rw [if_neg hk, alookup_append_one]
        cases hmp : alookup m p with
        | some v => rfl
        | none =>
          by_cases hvp : virtOf f = p
          · rw [if_pos hvp]
            exact (@List.find?_cons_of_pos _ (fun g => virtOf g == p) f _ (by simp [hvp])).symm
          · rw [if_neg hvp]
            exact (@List.find?_cons_of_neg _ (fun g => virtOf g == p) f _ (by simp [hvp])).symm
    · rw [List.filter_cons_of_neg (by simpa using hrec)]
      unfold build_view_step
      rw [if_neg hrec]

/-- The live build binds, at every key, the last recognized file of the walk
that maps there (each dict write overwrites), on top of whatever the
accumulator already holds. -/
theorem alookup_foldl_fuse (files : List SrcFile) (m : List (Str × SrcFile)) (p : Str) :
    alookup (files.foldl fuse_step m) p =
      match ((files.filter (fun f => recognized f)).reverse).find? (fun g => virtOfU g == p) with
      | some g => some g
      | none => alookup m p := by
  induction files generalizing m with
  | nil => rfl
  | cons f fs ih =>
    rw [List.foldl_cons, ih]
    by_cases hrec : recognized f = true
    · rw [List.filter_cons_of_pos hrec, List.reverse_cons, find?_append_files]
      cases hL : ((fs.filter (fun f => recognized f)).reverse).find? (fun g => virtOfU g == p) with
      | some g => rfl
      | none =>
        unfold fuse_step
        rw [if_pos hrec]
        by_cases hvp : virtOfU f = p
        · rw [show (List.find? (fun g => virtOfU g == p) [f]) = some f from
            List.find?_cons_of_pos _ (by simp [hvp])]
          rw [← hvp]
          exact alookup_dictInsert_self m (virtOfU f) f
        · rw [show (List.find? (fun g => virtOfU g == p) [f]) = none from by
            rw [List.find?_cons_of_neg _ (by simp [hvp])]
            rfl]
          exact alookup_dictInsert_other m (virtOfU f) f p (fun h => hvp h.symm)
    · rw [List.filter_cons_of_neg (by simpa using hrec)]
      unfold fuse_step
      rw [if_neg hrec]

/-- Keys stay duplicate-free under the snapshot build. -/
theorem nodup_keys_build (files : List SrcFile) (m : List (Str × SrcFile))
    (h : (m.map Prod.fst).Nodup) :
    ((files.foldl build_view_step m).map Prod.fst).Nodup := by
  induction files generalizing m with
  | nil => exact h
  | cons f fs ih =>
    rw [List.foldl_cons]
    apply ih
    unfold build_view_step
    split
    · split
      · exact h
      · rename_i hk
        rw [List.map_append, List.nodup_append]
        refine ⟨h, List.nodup_singleton _, ?_⟩
        intro a ha hb
        simp only [List.map_cons, List.map_nil, List.mem_singleton] at hb
        subst hb
        have hnone : alookup m (virtOf f) = none := by
          cases h2 : alookup m (virtOf f)
          · rfl
          · exact absurd (by simp [h2]) hk
        exact (alookup_eq_none_iff m (virtOf f)).mp hnone ha
    · exact h

/-- Keys stay duplicate-free under the live build. -/
theorem nodup_keys_fuse (files : List SrcFile) (m : List (Str × SrcFile))
    (h : (m.map Prod.fst).Nodup) :
    ((files.foldl fuse_step m).map Prod.fst).Nodup := by
  induction files generalizing m with
  | nil => exact h
  | cons f fs ih =>
    rw [List.foldl_cons]
    apply ih
    unfold fuse_step
    split
    · unfold dictInsert
      split
      · rw [List.map_map]
        have hcomp : (Prod.fst ∘ fun e : Str × SrcFile =>
            if e.1 = virtOfU f then (e.1, f) else e) = Prod.fst := by
          funext e
          simp only [Function.comp_apply]
          split <;> rfl
        rw [hcomp]
        exact h
      · rename_i hk
        rw [List.map_append, List.nodup_append]
        refine ⟨h, List.nodup_singleton _, ?_⟩
        intro a ha hb
        simp only [List.map_cons, List.map_nil, List.mem_singleton] at hb
        subst hb
        have hnone : alookup m (virtOfU f) = none := by
          cases h2 : alookup m (virtOfU f)
          · rfl
          · exact absurd (by simp [h2]) hk
        exact (alookup_eq_none_iff m (virtOfU f)).mp hnone ha
    · exact h

/-- A snapshot binding determines its own key: the bound file's virtual path. -/
theorem build_view_binding (files : List SrcFile) (p : Str) (f : SrcFile)
    (h : alookup (build_view files) p = some f) : virtOf f = p := by
  unfold build_view at h
  rw [alookup_foldl_build files [] p] at h
  have hfind : (files.filter (fun f => recognized f)).find? (fun f => virtOf f == p) = some f := h
  have := List.find?_some hfind
  simpa using this

/-- A live binding determines its own key: the bound file's upper-cased
virtual path. -/
theorem fuse_build_binding (files : List SrcFile) (p : Str) (f : SrcFile)
    (h : alookup (fuse_build_map files) p = some f) : virtOfU f = p := by
  unfold fuse_build_map at h
  rw [alookup_foldl_fuse files [] p] at h
  cases hL : ((files.filter (fun f => recognized f)).reverse).find? (fun g => virtOfU g == p) with
  | some g =>
    rw [hL] at h
    have := List.find?_some hL
    simp only [Option.some.injEq] at h
    rw [← h]
    simpa using this
  | none =>
    rw [hL] at h
    exact absurd h (by simp [alookup])

/-- C1: the claim says a resolved dotted entity name s1...sn becomes nested
directories s1..s(n-1) plus a terminal directory sn containing sn.ext, so the
leaf stem equals the last directory segment.  The code instead keeps the whole
dotted name in a single leaf filename directly under the file's relative
source directory: a root file resolving to `Outer.Inner` maps to the flat
path `Outer.Inner.ads`, which contains no directory separator at all (and in
particular is not `Outer/Inner/Inner.ads`).  The repository's own test
`test_case1` expects the terminal-directory layout, so the code contradicts
its tests. -/
theorem C1_flat_virtual_path :
    map_to_virtual [] (str "outer-inner.ads") (some (str "package Outer.Inner is")) =
      str "Outer.Inner.ads" ∧
    '/' ∉ map_to_virtual [] (str "outer-inner.ads") (some (str "package Outer.Inner is")) ∧
    map_to_virtual [] (str "outer-inner.ads") (some (str "package Outer.Inner is")) ≠
      str "Outer/Inner/Inner.ads" := by
  refine ⟨by decide, by decide, by decide⟩

/-- C2 counterexample: two recognized files that resolve to the same virtual
path.  In the live backend (`AdaFuse._build`) the dict write overwrites, so
the final Mapping binds the second-discovered file, not the first as the
claim states. -/
theorem C2_fuse_overwrites :
    alookup (fuse_build_map [pkgBody1, pkgBody2]) (str "PKG.ADB") = some pkgBody2 ∧
    pkgBody2 ≠ pkgBody1 := by
  refine ⟨by decide, by decide⟩

/-- C2 as amended: at every virtual path the snapshot backend binds the first
recognized file of the walk mapping there, while the live backend binds the
last one; in both backends the final mapping has duplicate-free keys (exactly
one entry per occupied path) and is injective (no two paths bind the same
file). -/
theorem C2_mapping_characterization (files : List SrcFile) (p : Str) :
    alookup (build_view files) p =
      (files.filter (fun f => recognized f)).find? (fun f => virtOf f == p) ∧
    alookup (fuse_build_map files) p =
      ((files.filter (fun f => recognized f)).reverse).find? (fun g => virtOfU g == p) ∧
    ((build_view files).map Prod.fst).Nodup ∧
    ((fuse_build_map files).map Prod.fst).Nodup ∧
    (∀ q f, alookup (build_view files) p = some f →
      alookup (build_view files) q = some f → p = q) ∧
    (∀ q f, alookup (fuse_build_map files) p = some f →
      alookup (fuse_build_map files) q = some f → p = q) := by
  refine ⟨?_, ?_, nodup_keys_build files [] (by simp),
    nodup_keys_fuse files [] (by simp), ?_, ?_⟩
  · exact alookup_foldl_build files [] p
  · have h := alookup_foldl_fuse files [] p
    cases hL : ((files.filter (fun f => recognized f)).reverse).find? (fun g => virtOfU g == p) with
    | some g => rw [hL] at h; exact h
    | none =>
      rw [hL] at h
      exact h
  · intro q f h1 h2
    rw [← build_view_binding files p f h1, ← build_view_binding files q f h2]
  · intro q f h1 h2
    rw [← fuse_build_binding files p f h1, ← fuse_build_binding files q f h2]

/-- C2 witness: on the two colliding body files, the snapshot keeps the first
and the live backend keeps the second. -/
theorem C2_mapping_characterization_witness :
    alookup (build_view [pkgBody1, pkgBody2]) (str "Pkg.adb") = some pkgBody1 ∧
    alookup (fuse_build_map [pkgBody1, pkgBody2]) (str "PKG.ADB") = some pkgBody2 := by
  constructor
  · rw [(C2_mapping_characterization [pkgBody1, pkgBody2] (str "Pkg.adb")).1]
    decide
  · rw [(C2_mapping_characterization [pkgBody1, pkgBody2] (str "PKG.ADB")).2.1]
    decide

/-- C5: `build_view` chmods every directory it created to `0o755`, whose
owner-write bit `0o200` is set, so the claim that no class of user keeps
write permission fails on every created directory (the code's own comment
says the directories are made read-only, and the repository marks its
read-only test as an expected failure). -/
theorem C5_created_dirs_owner_writable (created : List Str) (d : Str) (mo : Nat)
    (h : (d, mo) ∈ build_view_chmod created) :
    mo = 0o755 ∧ mo &&& 0o222 = 0o200 ∧ mo &&& 0o222 ≠ 0 := by
  unfold build_view_chmod at h
  obtain ⟨x, _, hx⟩ := List.mem_map.mp h
  have hmo : mo = 0o755 := (Prod.mk.injEq _ _ _ _).mp hx |>.2.symm
  refine ⟨hmo, ?_, ?_⟩
  · rw [hmo]; decide
  · rw [hmo]; decide

/-- C5 witness: the mode recorded for the mount root itself. -/
theorem C5_created_dirs_owner_writable_witness :
    (0o755 : Nat) = 0o755 ∧ (0o755 : Nat) &&& 0o222 = 0o200 ∧ (0o755 : Nat) &&& 0o222 ≠ 0 :=
  C5_created_dirs_owner_writable [[]] [] 0o755 (by decide)

/-- C6 counterexample: an unreadable recognized file is not excluded from the
Mapping; `map_to_virtual` synthesizes the placeholder `fooKNUNCHED.ads` and
`build_view` binds the file there, so it does appear in the view. -/
theorem C6_unreadable_not_excluded :
    alookup (build_view [unreadableF]) (str "fooKNUNCHED.ads") = some unreadableF ∧
    build_view [unreadableF] ≠ [] := by
  refine ⟨by decide, by decide⟩

/-- C6 as amended: an unreadable file indeed yields no resolution and the
build completes, but the caller does not exclude the file: it appears in the
Mapping at the placeholder path formed from its base name. -/
theorem C6_unreadable_placeholder (dirs fname : Str)
    (h : recognized ⟨dirs, fname, none⟩ = true) :
    get_ada_entity_name none = none ∧
    alookup (build_view [⟨dirs, fname, none⟩]) (virtOf ⟨dirs, fname, none⟩) =
      some ⟨dirs, fname, none⟩ := by
  refine ⟨rfl, ?_⟩
  show alookup (build_view_step [] ⟨dirs, fname, none⟩) (virtOf ⟨dirs, fname, none⟩) =
    some ⟨dirs, fname, none⟩
  unfold build_view_step
  rw [if_pos h]
  simp [alookup]

/-- C6 witness: the unreadable file `foo.ads` resolves to nothing yet is
bound at `fooKNUNCHED.ads`. -/
theorem C6_unreadable_placeholder_witness :
    get_ada_entity_name none = none ∧
    alookup (build_view [⟨[], str "foo.ads", none⟩]) (virtOf ⟨[], str "foo.ads", none⟩) =
      some ⟨[], str "foo.ads", none⟩ :=
  C6_unreadable_placeholder [] (str "foo.ads") (by decide)

/-- C7 counterexample: for the krunched base `a-2adb2f` the claim's
transformation (truncate at the first '-', replace the qualifying-dot marker,
upper-case) would give `A.ads`; the code instead appends the literal tag
`KNUNCHED` to the unmodified base name. -/
theorem C7_fallback_keeps_base :
    map_to_virtual [] (str "a-2adb2f.ads") none = str "a-2adb2fKNUNCHED.ads" ∧
    map_to_virtual [] (str "a-2adb2f.ads") none ≠ str "A.ads" := by
  refine ⟨by decide, by decide⟩

/-- C7 as amended: when no entity name is resolved, the fallback name is the
unmodified base name with the literal tag `KNUNCHED` appended (no hyphen
truncation, no marker replacement, no upper-casing), followed by the
lower-cased extension; it always produces a nonempty name. -/
theorem C7_fallback_knunched (dirs fname : Str) :
    map_to_virtual dirs fname none =
      joinPath dirs
        (((splitext fname).1 ++ str "KNUNCHED") ++ ((splitext fname).2.map Char.toLower)) ∧
    map_to_virtual dirs fname none ≠ [] := by
  constructor
  · rfl
  · intro hEq
    have hx : (((splitext fname).1 ++ str "KNUNCHED") ++ ((splitext fname).2.map Char.toLower))
        ≠ [] := by
      intro hx
      have hlen := congrArg List.length hx
      have h8 : (str "KNUNCHED").length = 8 := rfl
      simp only [List.length_append, List.length_nil, h8] at hlen
      omega
    rw [map_to_virtual_eq] at hEq
    unfold joinPath at hEq
    split at hEq
    · exact hx hEq
    · simp at hEq

/-- C8 counterexample: `O_CREAT` alone is not in the refused flag mask, so an
open with create intent on a known leaf returns a handle instead of failing
with the Read-Only error the claim requires. -/
theorem C8_creat_not_refused :
    fuse_open [(str "A.ADS", fA)] (str "/A.ADS") O_CREAT = OpenResult.handle fA ∧
    fuse_open [(str "A.ADS", fA)] (str "/A.ADS") O_CREAT ≠ OpenResult.erofs := by
  refine ⟨by decide, by decide⟩

/-- C8 as amended: `open` fails Read-Only exactly when the flags intersect
`O_WRONLY|O_RDWR|O_APPEND` (create intent is not checked), fails Not-Found
when the key is unknown, and otherwise returns a handle bound to the mapped
file opened read-only. -/
theorem C8_open_policy (m : List (Str × SrcFile)) (path : Str) (flags : Nat) :
    (flags &&& (O_WRONLY ||| O_RDWR ||| O_APPEND) ≠ 0 →
      fuse_open m path flags = OpenResult.erofs) ∧
    (flags &&& (O_WRONLY ||| O_RDWR ||| O_APPEND) = 0 →
      ((alookup m (lookup_key path) = none → fuse_open m path flags = OpenResult.enoent) ∧
       (∀ f, alookup m (lookup_key path) = some f →
          fuse_open m path flags = OpenResult.handle f))) ∧
    O_CREAT &&& (O_WRONLY ||| O_RDWR ||| O_APPEND) = 0 := by
  refine ⟨?_, ?_, by decide⟩
  · intro h
    unfold fuse_open
    rw [if_pos h]
  · intro h
    constructor
    · intro hn
      unfold fuse_open
      rw [if_neg (fun hne => hne h), hn]
    · intro f hf
      unfold fuse_open
      rw [if_neg (fun hne => hne h), hf]

/-- C8 witness: a write-intent open fails Read-Only; a plain read-only open of
the known leaf returns its handle. -/
theorem C8_open_policy_witness :
    fuse_open [(str "A.ADS", fA)] (str "/A.ADS") O_WRONLY = OpenResult.erofs ∧
    fuse_open [(str "A.ADS", fA)] (str "/A.ADS") 0 = OpenResult.handle fA := by
  constructor
  · exact (C8_open_policy [(str "A.ADS", fA)] (str "/A.ADS") O_WRONLY).1 (by decide)
  · exact ((C8_open_policy [(str "A.ADS", fA)] (str "/A.ADS") 0).2.1 (by decide)).2 fA (by decide)

/-- C3 counterexample: on the spec's own parent/child scenario tree
(`OUTER` owning `OUTER.ads` and hosting child `INNER`), the categorizer skips
the top-level directory because its accumulated prefix equals its own name,
so the final tree still contains a hybrid directory. -/
theorem C3_hybrid_persists :
    anyHybridT (categorize_directory t1) = true := by decide

/-- C3 as amended: hybrid directories can survive the pass.  A hybrid
directory whose accumulated dotted prefix equals its name is left in place;
one whose prefix differs is relocated whole — files and children together —
into a sibling group directory named by the prefix, and the relocated
directory is still hybrid inside the group. -/
theorem C3_group_relocation (dname pfx : Str) (subs : EntryList) (files : List Str)
    (h1 : subs.isNil = false)
    (h2 : (files.contains (dname ++ str ".ads") || files.contains (dname ++ str ".adb")) = true)
    (h3 : pfx ≠ dname) :
    categorizeDir dname pfx (.mk subs files) =
      (pfx, .mk (.cons dname (.mk (categorizeEntries pfx subs) files) .nil) []) ∧
    hybridNode dname (.mk (categorizeEntries pfx subs) files) = true := by
  have hnn : (categorizeEntries pfx subs).isNil = false := by
    cases subs with
    | nil => simp [EntryList.isNil] at h1
    | cons d td rest => simp [categorizeEntries, EntryList.isNil]
  constructor
  · unfold categorizeDir
    rw [h1, h2]
    simp only [Bool.not_false, Bool.true_and, if_true]
    rw [if_neg h3]
  · simp only [hybridNode, hnn, Bool.not_false, Bool.true_and]
    exact h2

/-- C3 witness: a non-top-level hybrid directory `X` (spec and body plus a
child `Y`) processed with prefix `legacy.X` is relocated into the group
`legacy.X` and remains hybrid there. -/
theorem C3_group_relocation_witness :
    categorizeDir (str "X") (str "legacy.X")
        (.mk (.cons (str "Y") (.mk .nil [str "Y.ads"]) .nil) [str "X.ads", str "X.adb"]) =
      (str "legacy.X",
        .mk (.cons (str "X")
              (.mk (categorizeEntries (str "legacy.X") (.cons (str "Y") (.mk .nil [str "Y.ads"]) .nil))
                [str "X.ads", str "X.adb"])
              .nil)
          []) ∧
    hybridNode (str "X")
        (.mk (categorizeEntries (str "legacy.X") (.cons (str "Y") (.mk .nil [str "Y.ads"]) .nil))
          [str "X.ads", str "X.adb"]) = true :=
  C3_group_relocation (str "X") (str "legacy.X")
    (.cons (str "Y") (.mk .nil [str "Y.ads"]) .nil)
    [str "X.ads", str "X.adb"] (by decide) (by decide) (by decide)

/-- C4 counterexample: on tree `A/B/{B.ads, C/}` the first pass moves `B`
into `A/A.B`, and a second pass moves it again into `A/A.B/A.A.B.B` (the
prefixes are re-accumulated from the current tree), so running the
categorizer twice does not give the same tree as running it once. -/
theorem C4_not_idempotent :
    categorize_directory (categorize_directory t2) ≠ categorize_directory t2 := by
  intro h
  have h2 := congrArg (containsDirT (str "A.A.B.B")) h
  rw [show containsDirT (str "A.A.B.B") (categorize_directory (categorize_directory t2)) = true
        from by decide,
      show containsDirT (str "A.A.B.B") (categorize_directory t2) = false from by decide] at h2
  exact Bool.noConfusion h2

/-- C4 as amended: the skip that the claim describes is real — a relocation
whose source and destination coincide (the accumulated prefix equals the
directory's own name) is skipped, the directory staying in place with only
its children processed — but this does not make the pass idempotent. -/
theorem C4_skip_when_coincide (dname : Str) (subs : EntryList) (files : List Str) :
    categorizeDir dname dname (.mk subs files) =
      (dname, .mk (categorizeEntries dname subs) files) := by
  unfold categorizeDir
  split
  · rw [if_pos rfl]
  · rfl

/-- C9 counterexample: the live backend stores and lists the upper-cased
virtual path, so the presented name `A.ADS` carries an upper-case extension,
not a lower-case one. -/
theorem C9_upper_extension_presented :
    str "A.ADS" ∈ fuse_readdir (fuse_build_dirs [] [fA]) (fuse_build_map [fA]) (str "/") ∧
    (splitext (str "A.ADS")).2 ≠ ((splitext (str "A.ADS")).2).map Char.toLower := by
  refine ⟨by decide, by decide⟩

/-- A suffix of the leaf part is a suffix of the joined path. -/
theorem suffix_joinPath (a x s : Str) (h : s <:+ x) : s <:+ joinPath a x := by
  unfold joinPath
  split
  · exact h
  · refine h.trans ?_
    rw [show a ++ '/' :: x = (a ++ ['/']) ++ x by simp]
    exact List.suffix_append _ _

/-- Upper-casing distributes over path joining ('/' is fixed by `toUpper`). -/
theorem map_toUpper_joinPath (a x : Str) :
    (joinPath a x).map Char.toUpper = joinPath (a.map Char.toUpper) (x.map Char.toUpper) := by
  by_cases ha : a = []
  · rw [ha]
    simp [joinPath]
  · have hma : a.map Char.toUpper ≠ [] := by
      intro hm
      exact ha (List.map_eq_nil_iff.mp hm)
    rw [joinPath, joinPath, if_neg ha, if_neg hma]
    have hsl : Char.toUpper '/' = '/' := rfl
    simp [hsl]

/-- C9 as amended: the snapshot path carries the lower-cased extension, while
the key the live backend stores and presents is the fully upper-cased virtual
path, whose extension is upper-case. -/
theorem C9_extension_case (dirs fname : Str) (content : Option Str) :
    ((splitext fname).2 = str ".ads" →
      str ".ads" <:+ map_to_virtual dirs fname content ∧
      str ".ADS" <:+ (map_to_virtual dirs fname content).map Char.toUpper) ∧
    ((splitext fname).2 = str ".adb" →
      str ".adb" <:+ map_to_virtual dirs fname content ∧
      str ".ADB" <:+ (map_to_virtual dirs fname content).map Char.toUpper) := by
  constructor
  · intro h
    rw [map_to_virtual_eq, h]
    constructor
    · apply suffix_joinPath
      rw [show (str ".ads").map Char.toLower = str ".ads" from by decide]
      exact List.suffix_append _ _
    · rw [map_toUpper_joinPath]
      apply suffix_joinPath
      rw [List.map_append]
      rw [show ((str ".ads").map Char.toLower).map Char.toUpper = str ".ADS" from by decide]
      exact List.suffix_append _ _
  · intro h
    rw [map_to_virtual_eq, h]
    constructor
    · apply suffix_joinPath
      rw [show (str ".adb").map Char.toLower = str ".adb" from by decide]
      exact List.suffix_append _ _
    · rw [map_toUpper_joinPath]
      apply suffix_joinPath
      rw [List.map_append]
      rw [show ((str ".adb").map Char.toLower).map Char.toUpper = str ".ADB" from by decide]
      exact List.suffix_append _ _

/-- C9 witness: the spec file `a-x.ads` keeps its lower-case extension in the
snapshot path and gets an upper-case one in the live key. -/
theorem C9_extension_case_witness :
    str ".ads" <:+ map_to_virtual [] (str "a-x.ads") (some (str "package A is")) ∧
    str ".ADS" <:+ (map_to_virtual [] (str "a-x.ads") (some (str "package A is"))).map Char.toUpper :=
  (C9_extension_case [] (str "a-x.ads") (some (str "package A is"))).1 (by decide)

/-- C10: request-path resolution in the live backend is case-insensitive:
`getattr`, `readdir` and `open` give the same result for any two request
paths with equal upper-casings, because every incoming path is upper-cased
(after stripping leading slashes) before comparison with the stored keys. -/
theorem C10_case_insensitive (dirs : List Str) (m : List (Str × SrcFile)) (p q : Str)
    (flags : Nat) (h : p.map Char.toUpper = q.map Char.toUpper) :
    fuse_getattr dirs m p = fuse_getattr dirs m q ∧
    fuse_readdir dirs m p = fuse_readdir dirs m q ∧
    fuse_open m p flags = fuse_open m q flags := by
  have hkey := lookup_key_congr p q h
  refine ⟨?_, ?_, ?_⟩
  · unfold fuse_getattr
    rw [hkey]
  · unfold fuse_readdir
    rw [hkey]
  · unfold fuse_open
    rw [hkey]

/-- C10 witness: `/a.ads` and `/A.ADS` answer identically. -/
theorem C10_case_insensitive_witness :
    fuse_getattr [[]] [(str "A.ADS", fA)] (str "/a.ads") =
      fuse_getattr [[]] [(str "A.ADS", fA)] (str "/A.ADS") ∧
    fuse_readdir [[]] [(str "A.ADS", fA)] (str "/a.ads") =
      fuse_readdir [[]] [(str "A.ADS", fA)] (str "/A.ADS") ∧
    fuse_open [(str "A.ADS", fA)] (str "/a.ads") 0 =
      fuse_open [(str "A.ADS", fA)] (str "/A.ADS") 0 :=
  C10_case_insensitive [[]] [(str "A.ADS", fA)] (str "/a.ads") (str "/A.ADS") 0 (by decide)
